import Mathlib

/-!
Shallow embedding of the imajin-chat conversation/membership/invite core.

Each definition mirrors one route handler or utility function of the
TypeScript source (src/app/api/... and src/lib/utils.ts).  The database is
modelled as explicit lists of rows; handlers take the database and the
authenticated identity and return an outcome together with the new database.
Timestamps are naturals (milliseconds); the random id generator is modelled
by a counter stored in the database.
-/

namespace ImajinChat

/-- Mirrors utils.ts hasRole: the index of a role in the array
["readonly", "member", "admin", "owner"] via Array.indexOf, which returns
-1 when the string is not in the array.  The array elements are pairwise
distinct, so indexOf is this if-chain. -/
def roleLevel (r : String) : Int :=
  if r = "readonly" then 0
  else if r = "member" then 1
  else if r = "admin" then 2
  else if r = "owner" then 3
  else -1

/-- The role hierarchy array of utils.ts. -/
def roleHierarchy : List String := ["readonly", "member", "admin", "owner"]

/-- utils.ts hasRole(userRole, requiredRole): userLevel >= requiredLevel. -/
def hasRole (userRole requiredRole : String) : Bool :=
  decide (roleLevel userRole ≥ roleLevel requiredRole)

/-- Character class [a-zA-Z0-9] of the DID regular expression. -/
def isAlphaNum (c : Char) : Bool :=
  ('a' ≤ c && c ≤ 'z') || ('A' ≤ c && c ≤ 'Z') || ('0' ≤ c && c ≤ '9')

/-- utils.ts isValidDid: tests /^did:imajin:[a-zA-Z0-9]+$/. -/
def isValidDid (did : String) : Bool :=
  let cs := did.toList
  let pre := "did:imajin:".toList
  pre.isPrefixOf cs && !(cs.drop pre.length).isEmpty
    && (cs.drop pre.length).all isAlphaNum

/-- The caller-supplied JSON content object of a message: only its "type"
and "text" fields are ever inspected by the server; everything else is
opaque ciphertext material. -/
structure ContentObj where
  type : Option String
  text : Option String
  deriving DecidableEq

/-- A row of the conversations table (fields the core logic reads). -/
structure Conversation where
  id : String
  ctype : String
  name : Option String
  description : Option String
  visibility : String
  createdBy : String
  deriving DecidableEq

/-- A row of the participants table; primary key (conversationId, did). -/
structure Participant where
  conversationId : String
  did : String
  role : String
  invitedBy : Option String
  deriving DecidableEq

/-- A row of the messages table. -/
structure Message where
  id : String
  conversationId : String
  fromDid : String
  content : ContentObj
  contentType : String
  replyTo : Option String
  createdAt : Nat
  deletedAt : Option Nat
  deriving DecidableEq

/-- A row of the invites table.  maxUses and usedCount are numeric strings
in the schema, always written via toString and read via parseInt, so they
are modelled as naturals. -/
structure Invite where
  id : String
  conversationId : String
  createdBy : String
  forDid : Option String
  maxUses : Option Nat
  usedCount : Nat
  expiresAt : Option Nat
  revokedAt : Option Nat
  deriving DecidableEq

/-- The persistent store, plus the id-generation counter standing in for
generateId's randomness. -/
structure Db where
  conversations : List Conversation
  participants : List Participant
  messages : List Message
  invites : List Invite
  nextId : Nat
  deriving DecidableEq

/-- utils.ts generateId, with the random hex replaced by a counter. -/
def generateId (pfx : String) (n : Nat) : String :=
  pfx ++ "_" ++ toString n

/-- db.query.participants.findFirst on (conversationId, did). -/
def findParticipant (db : Db) (cid did : String) : Option Participant :=
  db.participants.find? (fun p => p.conversationId == cid && p.did == did)

/-- Number of participant rows of a conversation. -/
def countParticipants (db : Db) (cid : String) : Nat :=
  (db.participants.filter (fun p => p.conversationId == cid)).length

/-- Number of participant rows of a conversation whose role is "owner". -/
def countOwners (db : Db) (cid : String) : Nat :=
  (db.participants.filter
    (fun p => p.conversationId == cid && p.role == "owner")).length

/-- Whether the conversation row found for this id has type "direct"
(the innerJoin condition of the direct-conversation dedup scan). -/
def convIsDirect (db : Db) (cid : String) : Bool :=
  match db.conversations.find? (fun c => c.id == cid) with
  | some c => c.ctype == "direct"
  | none => false

/-! ### POST /api/conversations/:id/participants - add participant -/

inductive AddResult where
  | permissionDenied
  | invalidDid
  | roleTooHigh
  | alreadyParticipant
  | created (p : Option Participant)
  deriving DecidableEq

/-- POST handler of conversations/[id]/participants/route.ts.  `now` is the
database clock used for the inserted system message. -/
def addParticipant (db : Db) (identityId cid did role : String) (now : Nat) :
    AddResult × Db :=
  match findParticipant db cid identityId with
  | none => (.permissionDenied, db)
  | some my =>
    if !hasRole my.role "admin" then (.permissionDenied, db)
    else if !isValidDid did then (.invalidDid, db)
    else if my.role != "owner" && hasRole role my.role then (.roleTooHigh, db)
    else if (findParticipant db cid did).isSome then (.alreadyParticipant, db)
    else
      let p : Participant := ⟨cid, did, role, some identityId⟩
      let m : Message :=
        ⟨generateId "msg" db.nextId, cid, identityId,
          ⟨some "system", some (identityId ++ " added " ++ did)⟩,
          "system", none, now, none⟩
      let db' : Db :=
        { db with participants := db.participants ++ [p],
                  messages := db.messages ++ [m],
                  nextId := db.nextId + 1 }
      (.created (findParticipant db' cid did), db')

/-! ### PATCH /api/conversations/:id/participants - set role -/

inductive SetRoleResult where
  | invalidDid
  | invalidRole
  | notOwner
  | selfChange
  | updated
  deriving DecidableEq

/-- PATCH handler of conversations/[id]/participants/route.ts. -/
def setParticipantRole (db : Db) (identityId cid did role : String)
    (now : Nat) : SetRoleResult × Db :=
  if !isValidDid did then (.invalidDid, db)
  else if !(["readonly", "member", "admin"].contains role) then
    (.invalidRole, db)
  else match findParticipant db cid identityId with
  | none => (.notOwner, db)
  | some my =>
    if my.role != "owner" then (.notOwner, db)
    else if did == identityId then (.selfChange, db)
    else
      let m : Message :=
        ⟨generateId "msg" db.nextId, cid, identityId,
          ⟨some "system",
            some (identityId ++ " changed " ++ did ++ " role to " ++ role)⟩,
          "system", none, now, none⟩
      let db' : Db :=
        { db with
            participants := db.participants.map (fun p =>
              if p.conversationId == cid && p.did == did then
                { p with role := role }
              else p),
            messages := db.messages ++ [m],
            nextId := db.nextId + 1 }
      (.updated, db')

/-! ### DELETE /api/conversations/:id/participants - remove participant -/

inductive RemoveResult where
  | invalidDid
  | requesterNotFound
  | permissionDenied
  | ownerCannotLeave
  | targetNotFound
  | targetTooHigh
  | removed
  deriving DecidableEq

/-- DELETE handler of conversations/[id]/participants/route.ts. -/
def removeParticipant (db : Db) (identityId cid did : String) (now : Nat) :
    RemoveResult × Db :=
  if !isValidDid did then (.invalidDid, db)
  else match findParticipant db cid identityId with
  | none => (.requesterNotFound, db)
  | some my =>
    let isSelf := did == identityId
    if !isSelf && !hasRole my.role "admin" then (.permissionDenied, db)
    else if isSelf && my.role == "owner" then (.ownerCannotLeave, db)
    else match findParticipant db cid did with
    | none => (.targetNotFound, db)
    | some tgt =>
      if !isSelf && hasRole tgt.role my.role then (.targetTooHigh, db)
      else
        let action := if isSelf then "left the group" else "removed " ++ did
        let m : Message :=
          ⟨generateId "msg" db.nextId, cid, identityId,
            ⟨some "system", some (identityId ++ " " ++ action)⟩,
            "system", none, now, none⟩
        let db' : Db :=
          { db with
              participants := db.participants.filter (fun p =>
                !(p.conversationId == cid && p.did == did)),
              messages := db.messages ++ [m],
              nextId := db.nextId + 1 }
        (.removed, db')

/-! ### POST /api/conversations/:id/messages - send message -/

inductive SendResult where
  | accessDenied
  | readonlyDenied
  | invalidContent
  | replyNotFound
  | sent (m : Option Message)
  deriving DecidableEq

/-- POST handler of conversations/[id]/messages/route.ts.  The request body
content is `none` when absent or not an object. -/
def sendMessage (db : Db) (identityId cid : String)
    (content : Option ContentObj) (replyTo : Option String) (now : Nat) :
    SendResult × Db :=
  match findParticipant db cid identityId with
  | none => (.accessDenied, db)
  | some p =>
    if p.role == "readonly" then (.readonlyDenied, db)
    else match content with
    | none => (.invalidContent, db)
    | some c =>
      let contentType := if c.type == some "system" then "system" else "text"
      let replyOk :=
        match replyTo with
        | none => true
        | some r =>
          (db.messages.find? (fun m =>
            m.id == r && m.conversationId == cid)).isSome
      if !replyOk then (.replyNotFound, db)
      else
        let msgId := generateId "msg" db.nextId
        let m : Message :=
          ⟨msgId, cid, identityId, c, contentType, replyTo, now, none⟩
        let db' : Db :=
          { db with messages := db.messages ++ [m],
                    nextId := db.nextId + 1 }
        (.sent (db'.messages.find? (fun x => x.id == msgId)), db')

/-! ### GET /api/conversations/:id/messages - list messages -/

/-- Descending order on creation time, the orderBy of the message query. -/
def byCreatedDesc (a b : Message) : Prop := b.createdAt ≤ a.createdAt

instance : DecidableRel byCreatedDesc := fun a b =>
  Nat.decLe b.createdAt a.createdAt

instance : IsTotal Message byCreatedDesc :=
  ⟨fun a b => Nat.le_total b.createdAt a.createdAt⟩

instance : IsTrans Message byCreatedDesc :=
  ⟨fun _ _ _ hab hbc => Nat.le_trans hbc hab⟩

/-- The creation time of the cursor message named by `before`, when that id
resolves (the findFirst on messages.id). -/
def cursorTime (db : Db) (before : Option String) : Option Nat :=
  match before with
  | none => none
  | some b => (db.messages.find? (fun m => m.id == b)).map (·.createdAt)

/-- The rows the message query selects: same conversation, not
soft-deleted, and created strictly before the cursor when one resolves. -/
def qualifyingMessages (db : Db) (cid : String) (before : Option String) :
    List Message :=
  db.messages.filter (fun m =>
    m.conversationId == cid && m.deletedAt.isNone &&
      (match cursorTime db before with
       | some t => decide (m.createdAt < t)
       | none => true))

inductive ListResult where
  | accessDenied
  | page (msgs : List Message) (hasMore : Bool)
  deriving DecidableEq

/-- GET handler of conversations/[id]/messages/route.ts.  `limitParam` is
the parsed limit query parameter when present; the handler applies the
default of 50 and the cap of 100.  The select is modelled by a sort of the
qualifying rows by createdAt descending followed by the limit. -/
def listMessages (db : Db) (identityId cid : String)
    (limitParam : Option Nat) (before : Option String) : ListResult :=
  match findParticipant db cid identityId with
  | none => .accessDenied
  | some _ =>
    let limit := min (limitParam.getD 50) 100
    let result :=
      (List.insertionSort byCreatedDesc
        (qualifyingMessages db cid before)).take limit
    .page result.reverse (result.length == limit)

/-! ### POST /api/conversations - create conversation -/

/-- The rows of the dedup scan of conversations/route.ts: the innerJoin of
direct conversations with participants whose did is the requester or the
target, projected to (conversationId, did). -/
def dedupRows (db : Db) (me otherDid : String) : List (String × String) :=
  (db.participants.filter (fun p =>
    convIsDirect db p.conversationId && (p.did == me || p.did == otherDid)))
    |>.map (fun p => (p.conversationId, p.did))

/-- The convCounts grouping plus the Object.entries scan: group the scanned
rows by conversation id (entry order is first-occurrence order, and the
did-set of an id is exactly the dids paired with it among the rows) and
return the first conversation id whose did-set contains both identities. -/
def findDedupConv (db : Db) (me otherDid : String) : Option String :=
  ((dedupRows db me otherDid).map Prod.fst).find? (fun cid =>
    (dedupRows db me otherDid).contains (cid, me) &&
      (dedupRows db me otherDid).contains (cid, otherDid))

inductive CreateResult where
  | invalidType
  | missingParticipants
  | invalidDid (did : String)
  | notExactlyOneOther
  | existingConv (conv : Option Conversation)
  | groupNeedsName
  | created (conv : Option Conversation)
  deriving DecidableEq

/-- The creation tail of the POST handler of conversations/route.ts: insert
the conversation, the requester as owner, every other supplied did as
member, and (group only) the creation system message.  The JS name
expression `name || null` stores null for an absent or empty name. -/
def mkConversation (db : Db) (identityId ctype : String)
    (name description : Option String) (participantDids : List String)
    (visibility : String) (now : Nat) : CreateResult × Db :=
  let convId := generateId "conv" db.nextId
  let conv : Conversation :=
    ⟨convId, ctype, if name.getD "" == "" then none else name,
      description, visibility, identityId⟩
  let owner : Participant := ⟨convId, identityId, "owner", none⟩
  let others : List Participant :=
    (participantDids.filter (fun d => d != identityId)).map
      (fun d => ⟨convId, d, "member", some identityId⟩)
  let sysMsgs : List Message :=
    if ctype == "group" then
      [⟨generateId "msg" (db.nextId + 1), convId, identityId,
        ⟨some "system", some (identityId ++ " created the group")⟩,
        "system", none, now, none⟩]
    else []
  let db' : Db :=
    { db with conversations := db.conversations ++ [conv],
              participants := db.participants ++ [owner] ++ others,
              messages := db.messages ++ sysMsgs,
              nextId := db.nextId + 2 }
  (.created (db'.conversations.find? (fun c => c.id == convId)), db')

/-- POST handler of conversations/route.ts. -/
def createConversation (db : Db) (identityId ctype : String)
    (name description : Option String) (participantDids : List String)
    (visibility : String) (now : Nat) : CreateResult × Db :=
  if !(["direct", "group"].contains ctype) then (.invalidType, db)
  else if participantDids.isEmpty then (.missingParticipants, db)
  else match participantDids.find? (fun d => !isValidDid d) with
  | some d => (.invalidDid d, db)
  | none =>
    if ctype == "direct" then
      match participantDids with
      | [otherDid] =>
        match findDedupConv db identityId otherDid with
        | some convId =>
          (.existingConv (db.conversations.find? (fun c => c.id == convId)),
            db)
        | none =>
          mkConversation db identityId ctype name description
            participantDids visibility now
      | _ => (.notExactlyOneOther, db)
    else
      if name.getD "" == "" then (.groupNeedsName, db)
      else
        mkConversation db identityId ctype name description
          participantDids visibility now

/-! ### PATCH /api/conversations/:id - update conversation -/

inductive UpdateResult where
  | permissionDenied
  | ok (conv : Option Conversation)
  deriving DecidableEq

/-- PATCH handler of conversations/[id]/route.ts.  An input of `some v`
models a field present in the request body (the `!== undefined` checks). -/
def updateConversation (db : Db) (identityId cid : String)
    (name description visibility : Option String) : UpdateResult × Db :=
  match findParticipant db cid identityId with
  | none => (.permissionDenied, db)
  | some p =>
    if !hasRole p.role "admin" then (.permissionDenied, db)
    else
      let db' : Db :=
        { db with conversations := db.conversations.map (fun c =>
            if c.id == cid then
              { c with
                  name := match name with
                    | some n => some n
                    | none => c.name,
                  description := match description with
                    | some d => some d
                    | none => c.description,
                  visibility := match visibility with
                    | some v => v
                    | none => c.visibility }
            else c) }
      (.ok (db'.conversations.find? (fun c => c.id == cid)), db')

/-! ### POST /api/invites - create invite -/

inductive CreateInviteResult where
  | permissionDenied
  | created (inv : Option Invite)
  deriving DecidableEq

/-- POST handler of invites/route.ts.  The expiry computation mirrors
`if (expiresInHours) expiresAt = new Date(Date.now() + h*60*60*1000)`:
an absent hour count, and also an hour count of 0 (falsy in JS), leave
expiresAt null. -/
def createInvite (db : Db) (identityId cid : String) (forDid : Option String)
    (maxUses : Option Nat) (expiresInHours : Option Nat) (now : Nat) :
    CreateInviteResult × Db :=
  match findParticipant db cid identityId with
  | none => (.permissionDenied, db)
  | some p =>
    if !hasRole p.role "admin" then (.permissionDenied, db)
    else
      let expiresAt : Option Nat :=
        match expiresInHours with
        | some h => if h != 0 then some (now + h * 60 * 60 * 1000) else none
        | none => none
      let invId := generateId "inv" db.nextId
      let inv : Invite :=
        ⟨invId, cid, identityId, forDid, maxUses, 0, expiresAt, none⟩
      let db' : Db :=
        { db with invites := db.invites ++ [inv], nextId := db.nextId + 1 }
      (.created (db'.invites.find? (fun i => i.id == invId)), db')

/-! ### GET and POST /api/invites/:id - preview and redeem -/

/-- The expiry test of invites/[id]/route.ts:
`invite.expiresAt && new Date(invite.expiresAt) < new Date()`. -/
def inviteExpired (inv : Invite) (now : Nat) : Bool :=
  match inv.expiresAt with
  | some t => decide (t < now)
  | none => false

/-- The exhaustion test of invites/[id]/route.ts:
`invite.maxUses && parseInt(usedCount) >= parseInt(maxUses)`. -/
def inviteExhausted (inv : Invite) : Bool :=
  match inv.maxUses with
  | some m => decide (m ≤ inv.usedCount)
  | none => false

/-- The conjunction of the three terminal-state tests passing: what the
code treats as a still-active invite. -/
def inviteActive (inv : Invite) (now : Nat) : Bool :=
  inv.revokedAt.isNone && !inviteExpired inv now && !inviteExhausted inv

inductive PreviewResult where
  | inviteNotFound
  | goneRevoked
  | goneExpired
  | goneExhausted
  | conversationNotFound
  | preview (conversationId : String) (participantCount : Nat)
  deriving DecidableEq

/-- GET handler of invites/[id]/route.ts (public invite preview). -/
def previewInvite (db : Db) (inviteId : String) (now : Nat) : PreviewResult :=
  match db.invites.find? (fun i => i.id == inviteId) with
  | none => .inviteNotFound
  | some inv =>
    if inv.revokedAt.isSome then .goneRevoked
    else if inviteExpired inv now then .goneExpired
    else if inviteExhausted inv then .goneExhausted
    else match db.conversations.find? (fun c =>
      c.id == inv.conversationId) with
    | none => .conversationNotFound
    | some c =>
      .preview c.id (countParticipants db inv.conversationId)

inductive RedeemResult where
  | inviteNotFound
  | goneRevoked
  | goneExpired
  | goneExhausted
  | wrongUser
  | alreadyMember (conversationId : String)
  | joined (conversationId : String)
  deriving DecidableEq

/-- POST handler of invites/[id]/route.ts (redeem an invite). -/
def redeemInvite (db : Db) (identityId inviteId : String) (now : Nat) :
    RedeemResult × Db :=
  match db.invites.find? (fun i => i.id == inviteId) with
  | none => (.inviteNotFound, db)
  | some inv =>
    if inv.revokedAt.isSome then (.goneRevoked, db)
    else if inviteExpired inv now then (.goneExpired, db)
    else if inviteExhausted inv then (.goneExhausted, db)
    else if (match inv.forDid with
             | some f => f != identityId
             | none => false) then (.wrongUser, db)
    else if (findParticipant db inv.conversationId identityId).isSome then
      (.alreadyMember inv.conversationId, db)
    else
      let p : Participant :=
        ⟨inv.conversationId, identityId, "member", some inv.createdBy⟩
      let m : Message :=
        ⟨generateId "msg" db.nextId, inv.conversationId, identityId,
          ⟨some "system", some (identityId ++ " joined via invite")⟩,
          "system", none, now, none⟩
      let db' : Db :=
        { db with
            participants := db.participants ++ [p],
            invites := db.invites.map (fun i =>
              if i.id == inviteId then
                { i with usedCount := inv.usedCount + 1 }
              else i),
            messages := db.messages ++ [m],
            nextId := db.nextId + 1 }
      (.joined inv.conversationId, db')

/-! ### Helper lemmas about the role hierarchy -/

/-- A role string outside the hierarchy array gets level -1 (Array.indexOf
returns -1 on a miss). -/
theorem roleLevel_of_not_mem {r : String} (h : r ∉ roleHierarchy) :
    roleLevel r = -1 := by
  simp only [roleHierarchy, List.mem_cons, List.not_mem_nil, or_false,
    not_or] at h
  obtain ⟨h1, h2, h3, h4⟩ := h
  simp [roleLevel, h1, h2, h3, h4]

/-- Every role level is at least -1. -/
theorem neg_one_le_roleLevel (r : String) : (-1 : Int) ≤ roleLevel r := by
  unfold roleLevel
  by_cases h1 : r = "readonly" <;> by_cases h2 : r = "member" <;>
    by_cases h3 : r = "admin" <;> by_cases h4 : r = "owner" <;>
    simp [h1, h2, h3, h4]

/-- Every role level is at most 3. -/
theorem roleLevel_le_three (r : String) : roleLevel r ≤ 3 := by
  unfold roleLevel
  by_cases h1 : r = "readonly" <;> by_cases h2 : r = "member" <;>
    by_cases h3 : r = "admin" <;> by_cases h4 : r = "owner" <;>
    simp [h1, h2, h3, h4]

/-- hasRole spelled as the level comparison. -/
theorem hasRole_eq_true_iff (u r : String) :
    hasRole u r = true ↔ roleLevel r ≤ roleLevel u := by
  simp [hasRole, ge_iff_le]

/-! ### C10: hasRole on unrecognized role strings -/

/-- C10: hasRole assigns level -1 to any role string outside
readonly/member/admin/owner, so hasRole u x is true whenever the required
role x is not in the hierarchy, and hasRole u "readonly" is false for
every unrecognized u; role strings are compared, never validated. -/
theorem hasRole_on_unknown_roles :
    (∀ u x : String, x ∉ roleHierarchy → hasRole u x = true) ∧
    (∀ r : String, r ∉ roleHierarchy → roleLevel r = -1) ∧
    (∀ u : String, u ∉ roleHierarchy → hasRole u "readonly" = false) := by
  refine ⟨fun u x hx => ?_, fun r hr => roleLevel_of_not_mem hr,
    fun u hu => ?_⟩
  · rw [hasRole_eq_true_iff, roleLevel_of_not_mem hx]
    exact neg_one_le_roleLevel u
  · have h := roleLevel_of_not_mem hu
    simp only [hasRole, ge_iff_le, h]
    decide

/-- Witness for C10 at the concrete unknown roles "boss" and
"superadmin". -/
theorem hasRole_on_unknown_roles_witness :
    hasRole "boss" "superadmin" = true ∧
    roleLevel "superadmin" = -1 ∧
    hasRole "boss" "readonly" = false :=
  ⟨hasRole_on_unknown_roles.1 "boss" "superadmin" (by decide),
   hasRole_on_unknown_roles.2.1 "superadmin" (by decide),
   hasRole_on_unknown_roles.2.2 "boss" (by decide)⟩

/-! ### C1: the one-owner invariant fails through add-participant -/

/-- A conversation with exactly one owner. -/
def dbOneOwner : Db :=
  { conversations :=
      [⟨"conv_0", "group", some "g", none, "private", "did:imajin:alice"⟩],
    participants := [⟨"conv_0", "did:imajin:alice", "owner", none⟩],
    messages := [], invites := [], nextId := 5 }

/-- C1 counterexample: from a state with exactly one owner, the owner adds
a participant with role "owner" (the role-ceiling check is skipped when the
requester is the owner and the supplied role string is never validated);
the conversation then has two owners. -/
theorem add_by_owner_creates_second_owner :
    countOwners dbOneOwner "conv_0" = 1 ∧
    (addParticipant dbOneOwner "did:imajin:alice" "conv_0" "did:imajin:bob"
        "owner" 7).1 ≠ .permissionDenied ∧
    countOwners (addParticipant dbOneOwner "did:imajin:alice" "conv_0"
        "did:imajin:bob" "owner" 7).2 "conv_0" = 2 := by
  refine ⟨by decide, by decide, by decide⟩

/-! ### C2: external callers can store contentType "system" -/

/-- A conversation with a plain member able to send messages. -/
def dbMemberSender : Db :=
  { conversations :=
      [⟨"conv_0", "group", some "g", none, "private", "did:imajin:amy"⟩],
    participants :=
      [⟨"conv_0", "did:imajin:bob", "member", some "did:imajin:amy"⟩],
    messages := [], invites := [], nextId := 0 }

/-- C2 counterexample: a plain member sends a caller-supplied content
object whose type field is "system" through the public send endpoint, and
the stored message row has contentType "system". -/
theorem send_stores_caller_supplied_system_contentType :
    ((sendMessage dbMemberSender "did:imajin:bob" "conv_0"
        (some ⟨some "system", some "fake admin notice"⟩) none 3).2.messages.map
      (·.contentType)) = ["system"] := by
  decide

/-! ### C3: the expiry boundary is non-strict in the code -/

/-- An invite whose expiresAt equals the probe time exactly. -/
def dbBoundaryInvite : Db :=
  { conversations :=
      [⟨"conv_0", "group", some "g", none, "private", "did:imajin:amy"⟩],
    participants := [⟨"conv_0", "did:imajin:amy", "owner", none⟩],
    messages := [],
    invites :=
      [⟨"inv_0", "conv_0", "did:imajin:amy", none, none, 0, some 100, none⟩],
    nextId := 1 }

/-- C3 counterexample: at now = expiresAt the claim requires the terminal
Gone state (it demands now strictly before expiresAt for success), but
both preview and redeem succeed, because the code tests
expiresAt < now rather than now < expiresAt. -/
theorem invite_succeeds_at_exact_expiry_time :
    ¬(100 < 100) ∧
    previewInvite dbBoundaryInvite "inv_0" 100 = .preview "conv_0" 1 ∧
    (redeemInvite dbBoundaryInvite "did:imajin:carl" "inv_0" 100).1 =
      .joined "conv_0" := by
  refine ⟨by decide, by decide, by decide⟩

/-! ### C4: direct conversations are not frozen after creation -/

/-- A direct conversation between amy and bob. -/
def dbDirectPair : Db :=
  { conversations :=
      [⟨"conv_0", "direct", none, none, "private", "did:imajin:amy"⟩],
    participants :=
      [⟨"conv_0", "did:imajin:amy", "owner", none⟩,
       ⟨"conv_0", "did:imajin:bob", "member", some "did:imajin:amy"⟩],
    messages := [], invites := [], nextId := 1 }

/-- C4 counterexample: the participant and update handlers never check the
conversation type, so the owner of a direct conversation can add a third
participant (the set gains a member) and rename it through PATCH. -/
theorem direct_conversation_gains_member_and_is_renamed :
    (dbDirectPair.conversations.map (·.ctype)) = ["direct"] ∧
    countParticipants dbDirectPair "conv_0" = 2 ∧
    countParticipants (addParticipant dbDirectPair "did:imajin:amy" "conv_0"
        "did:imajin:carl" "member" 2).2 "conv_0" = 3 ∧
    ((updateConversation dbDirectPair "did:imajin:amy" "conv_0"
        (some "renamed") none none).2.conversations.map (·.name)) =
      [some "renamed"] := by
  refine ⟨by decide, by decide, by decide, by decide⟩

/-! ### C6: a forDid binding blocks the already-member success -/

/-- A valid invite bound to carl, probed by bob who is already a member of
its conversation. -/
def dbBoundInvite : Db :=
  { conversations :=
      [⟨"conv_0", "group", some "g", none, "private", "did:imajin:amy"⟩],
    participants :=
      [⟨"conv_0", "did:imajin:amy", "owner", none⟩,
       ⟨"conv_0", "did:imajin:bob", "member", some "did:imajin:amy"⟩],
    messages := [],
    invites :=
      [⟨"inv_0", "conv_0", "did:imajin:amy", some "did:imajin:carl", none, 0,
        none, none⟩],
    nextId := 1 }

/-- C6 counterexample: the invite is valid and the consumer bob is already
a participant of its conversation, yet redeem does not succeed with
alreadyMember: the forDid check runs first and fails with Forbidden. -/
theorem redeem_forDid_blocks_existing_member :
    inviteActive
      ⟨"inv_0", "conv_0", "did:imajin:amy", some "did:imajin:carl", none, 0,
        none, none⟩ 50 = true ∧
    (findParticipant dbBoundInvite "conv_0" "did:imajin:bob").isSome = true ∧
    (redeemInvite dbBoundInvite "did:imajin:bob" "inv_0" 50).1 =
      .wrongUser := by
  refine ⟨by decide, by decide, by decide⟩

/-! ### C7: the second-page hasMore of the claimed example is true -/

/-- A message of the paginated conversation. -/
def pageMsg (i : String) (t : Nat) : Message :=
  ⟨i, "conv_0", "did:imajin:amy", ⟨none, none⟩, "text", none, t, none⟩

/-- Four messages at times 10 < 20 < 30 < 40. -/
def dbFourMessages : Db :=
  { conversations :=
      [⟨"conv_0", "group", some "g", none, "private", "did:imajin:amy"⟩],
    participants := [⟨"conv_0", "did:imajin:amy", "owner", none⟩],
    messages := [pageMsg "msg_1" 10, pageMsg "msg_2" 20, pageMsg "msg_3" 30,
      pageMsg "msg_4" 40],
    invites := [], nextId := 5 }

/-- C7 counterexample: on four messages t1 < t2 < t3 < t4 with limit 2, the
page before t3 is [t1, t2] as claimed, but its hasMore is true, not false:
the code sets hasMore iff exactly limit rows were returned, and this page
has exactly 2 = limit rows (the false positive the general contract
admits). -/
theorem second_page_hasMore_is_true :
    listMessages dbFourMessages "did:imajin:amy" "conv_0" (some 2)
        (some "msg_3") =
      .page [pageMsg "msg_1" 10, pageMsg "msg_2" 20] true := by
  decide

/-! ### C8: expiresInHours = 0 stores no expiry at all -/

/-- C8 (code bug): an invite created with expiresInHours = 0 falls into the
falsy branch of `if (expiresInHours)`, so the stored expiresAt is null,
not the creation time: the invite never expires, and a preview long after
creation still succeeds instead of reporting Gone/expired. -/
theorem create_invite_zero_hours_never_expires :
    (createInvite dbBoundaryInvite "did:imajin:amy" "conv_0" none none
        (some 0) 1000).1 =
      .created (some ⟨"inv_1", "conv_0", "did:imajin:amy", none, none, 0,
        none, none⟩) ∧
    previewInvite (createInvite dbBoundaryInvite "did:imajin:amy" "conv_0"
        none none (some 0) 1000).2 "inv_1" 999999999999 =
      .preview "conv_0" 1 := by
  refine ⟨by decide, by decide⟩

/-! ### C2 amended: contentType follows the caller content type field -/

/-- Evaluation of the send handler once the membership lookup resolves
and the content is an object. -/
theorem sendMessage_of_find (db : Db) (me cid : String) (c : ContentObj)
    (rto : Option String) (now : Nat) (p : Participant)
    (hf : findParticipant db cid me = some p) :
    sendMessage db me cid (some c) rto now =
      (if p.role == "readonly" then (.readonlyDenied, db)
       else
        let contentType := if c.type == some "system" then "system"
          else "text"
        let replyOk :=
          match rto with
          | none => true
          | some r => (db.messages.find? (fun m =>
              m.id == r && m.conversationId == cid)).isSome
        if !replyOk then (.replyNotFound, db)
        else
          let msgId := generateId "msg" db.nextId
          let m : Message :=
            ⟨msgId, cid, me, c, contentType, rto, now, none⟩
          let db' : Db :=
            { db with messages := db.messages ++ [m],
                      nextId := db.nextId + 1 }
          (.sent (db'.messages.find? (fun x => x.id == msgId)), db')) := by
  unfold sendMessage
  rw [hf]

/-- C2 amended: on a successful send, the stored message is exactly the
caller content with contentType "system" iff the caller content object
carries type = "system" (and "text" otherwise): system-tagged messages can
be stored through the public send endpoint. -/
theorem send_contentType_follows_caller_content (db : Db) (me cid : String)
    (c : ContentObj) (rto : Option String) (now : Nat)
    (h : ∃ om, (sendMessage db me cid (some c) rto now).1 = .sent om) :
    (sendMessage db me cid (some c) rto now).2.messages =
      db.messages ++
        [⟨generateId "msg" db.nextId, cid, me, c,
          if c.type == some "system" then "system" else "text",
          rto, now, none⟩] := by
  obtain ⟨om, h⟩ := h
  cases hf : findParticipant db cid me with
  | none =>
    exfalso
    unfold sendMessage at h
    rw [hf] at h
    simp at h
  | some p =>
    rw [sendMessage_of_find db me cid c rto now p hf] at h ⊢
    by_cases hr : (p.role == "readonly") = true
    · rw [if_pos hr] at h
      simp at h
    · rw [if_neg hr] at h ⊢
      cases rto with
      | none => simp
      | some r =>
        by_cases hrep : (db.messages.find? (fun m =>
            m.id == r && m.conversationId == cid)).isSome = true
        · simp [hrep]
        · have hrep' : (db.messages.find? (fun m =>
              m.id == r && m.conversationId == cid)).isSome = false := by
            simpa using hrep
          simp [hrep'] at h

/-- Witness for the amended C2 theorem: a member sends a non-system
content object and the stored row has contentType "text". -/
theorem send_contentType_follows_caller_content_witness :
    (sendMessage dbMemberSender "did:imajin:bob" "conv_0"
        (some ⟨some "x", some "hello"⟩) none 3).2.messages =
      dbMemberSender.messages ++
        [⟨generateId "msg" dbMemberSender.nextId, "conv_0", "did:imajin:bob",
          ⟨some "x", some "hello"⟩,
          if (some "x" : Option String) == some "system" then "system"
            else "text",
          none, 3, none⟩] :=
  send_contentType_follows_caller_content dbMemberSender "did:imajin:bob"
    "conv_0" ⟨some "x", some "hello"⟩ none 3
    ⟨some ⟨"msg_0", "conv_0", "did:imajin:bob", ⟨some "x", some "hello"⟩,
      "text", none, 3, none⟩, by decide⟩

/-! ### C3 amended: invite terminal states with the non-strict boundary -/

/-- Whether a preview outcome is one of the three Gone terminal states. -/
def isGonePreview : PreviewResult → Bool
  | .goneRevoked => true
  | .goneExpired => true
  | .goneExhausted => true
  | _ => false

/-- Whether a redeem outcome is one of the three Gone terminal states. -/
def isGoneRedeem : RedeemResult → Bool
  | .goneRevoked => true
  | .goneExpired => true
  | .goneExhausted => true
  | _ => false

/-- The expiry test holds exactly when expiresAt is set and strictly
before now. -/
theorem inviteExpired_eq_true_iff (inv : Invite) (now : Nat) :
    inviteExpired inv now = true ↔
      ∃ t, inv.expiresAt = some t ∧ t < now := by
  cases h : inv.expiresAt <;> simp [inviteExpired, h]

/-- The exhaustion test holds exactly when maxUses is set and usedCount
has reached it. -/
theorem inviteExhausted_eq_true_iff (inv : Invite) :
    inviteExhausted inv = true ↔
      ∃ m, inv.maxUses = some m ∧ m ≤ inv.usedCount := by
  cases h : inv.maxUses <;> simp [inviteExhausted, h]

/-- The code treats an invite as active iff revokedAt is null, now is at
or before any expiresAt, and usedCount is below any maxUses. -/
theorem inviteActive_eq_true_iff (inv : Invite) (now : Nat) :
    inviteActive inv now = true ↔
      (inv.revokedAt = none ∧ (∀ t, inv.expiresAt = some t → now ≤ t) ∧
        (∀ m, inv.maxUses = some m → inv.usedCount < m)) := by
  simp only [inviteActive, Bool.and_eq_true, Bool.not_eq_true',
    Option.isNone_iff_eq_none]
  constructor
  · rintro ⟨⟨h1, h2⟩, h3⟩
    refine ⟨h1, fun t ht => ?_, fun m hm => ?_⟩
    · by_contra hlt
      have : inviteExpired inv now = true :=
        (inviteExpired_eq_true_iff inv now).mpr ⟨t, ht, by omega⟩
      simp [this] at h2
    · by_contra hle
      have : inviteExhausted inv = true :=
        (inviteExhausted_eq_true_iff inv).mpr ⟨m, hm, by omega⟩
      simp [this] at h3
  · rintro ⟨h1, h2, h3⟩
    refine ⟨⟨h1, ?_⟩, ?_⟩
    · by_contra hx
      simp only [Bool.not_eq_false] at hx
      obtain ⟨t, ht, hlt⟩ := (inviteExpired_eq_true_iff inv now).mp hx
      exact absurd (h2 t ht) (by omega)
    · by_contra hx
      simp only [Bool.not_eq_false] at hx
      obtain ⟨m, hm, hle⟩ := (inviteExhausted_eq_true_iff inv).mp hx
      exact absurd (h3 m hm) (by omega)

/-- Evaluation of the preview handler once the invite lookup resolves. -/
theorem previewInvite_of_find (db : Db) (inviteId : String) (now : Nat)
    (inv : Invite)
    (hf : db.invites.find? (fun i => i.id == inviteId) = some inv) :
    previewInvite db inviteId now =
      if inv.revokedAt.isSome then .goneRevoked
      else if inviteExpired inv now then .goneExpired
      else if inviteExhausted inv then .goneExhausted
      else match db.conversations.find? (fun c =>
        c.id == inv.conversationId) with
      | none => .conversationNotFound
      | some c => .preview c.id (countParticipants db inv.conversationId)
    := by
  unfold previewInvite
  rw [hf]

/-- Evaluation of the redeem handler once the invite lookup resolves. -/
theorem redeemInvite_of_find (db : Db) (me inviteId : String) (now : Nat)
    (inv : Invite)
    (hf : db.invites.find? (fun i => i.id == inviteId) = some inv) :
    redeemInvite db me inviteId now =
      if inv.revokedAt.isSome then (.goneRevoked, db)
      else if inviteExpired inv now then (.goneExpired, db)
      else if inviteExhausted inv then (.goneExhausted, db)
      else if (match inv.forDid with
               | some f => f != me
               | none => false) then (.wrongUser, db)
      else if (findParticipant db inv.conversationId me).isSome then
        (.alreadyMember inv.conversationId, db)
      else
        (.joined inv.conversationId,
          { db with
              participants := db.participants ++
                [⟨inv.conversationId, me, "member", some inv.createdBy⟩],
              invites := db.invites.map (fun i =>
                if i.id == inviteId then
                  { i with usedCount := inv.usedCount + 1 }
                else i),
              messages := db.messages ++
                [⟨generateId "msg" db.nextId, inv.conversationId, me,
                  ⟨some "system", some (me ++ " joined via invite")⟩,
                  "system", none, now, none⟩],
              nextId := db.nextId + 1 }) := by
  unfold redeemInvite
  rw [hf]

/-- C3 amended: preview and redeem report a Gone terminal state iff the
invite resolves and is not active, where active means revokedAt null AND
(expiresAt null OR now at-or-before expiresAt, the non-strict boundary the
code implements) AND (maxUses null OR usedCount below it); the Gone kind
is determined in the order revoked, then expired, then exhausted, and an
unresolved invite id gives the distinct not-found outcome instead. -/
theorem invite_terminal_state_contract (db : Db) (me inviteId : String)
    (now : Nat) :
    ((previewInvite db inviteId now = .inviteNotFound ↔
        db.invites.find? (fun i => i.id == inviteId) = none) ∧
      ((redeemInvite db me inviteId now).1 = .inviteNotFound ↔
        db.invites.find? (fun i => i.id == inviteId) = none)) ∧
    (∀ inv, db.invites.find? (fun i => i.id == inviteId) = some inv →
      (inviteActive inv now = true ↔
        (inv.revokedAt = none ∧ (∀ t, inv.expiresAt = some t → now ≤ t) ∧
          (∀ m, inv.maxUses = some m → inv.usedCount < m))) ∧
      (isGonePreview (previewInvite db inviteId now) = true ↔
        inviteActive inv now = false) ∧
      (isGoneRedeem (redeemInvite db me inviteId now).1 = true ↔
        inviteActive inv now = false) ∧
      (previewInvite db inviteId now = .goneRevoked ↔
        inv.revokedAt ≠ none) ∧
      (previewInvite db inviteId now = .goneExpired ↔
        inv.revokedAt = none ∧ ∃ t, inv.expiresAt = some t ∧ t < now) ∧
      (previewInvite db inviteId now = .goneExhausted ↔
        inv.revokedAt = none ∧ inviteExpired inv now = false ∧
          ∃ m, inv.maxUses = some m ∧ m ≤ inv.usedCount) ∧
      ((redeemInvite db me inviteId now).1 = .goneRevoked ↔
        inv.revokedAt ≠ none) ∧
      ((redeemInvite db me inviteId now).1 = .goneExpired ↔
        inv.revokedAt = none ∧ ∃ t, inv.expiresAt = some t ∧ t < now) ∧
      ((redeemInvite db me inviteId now).1 = .goneExhausted ↔
        inv.revokedAt = none ∧ inviteExpired inv now = false ∧
          ∃ m, inv.maxUses = some m ∧ m ≤ inv.usedCount)) := by
  have hgone : ∀ r : PreviewResult, isGonePreview r = false →
      r ≠ .goneRevoked ∧ r ≠ .goneExpired ∧ r ≠ .goneExhausted := by
    intro r h; cases r <;> simp_all [isGonePreview]
  have hgoner : ∀ r : RedeemResult, isGoneRedeem r = false →
      r ≠ .goneRevoked ∧ r ≠ .goneExpired ∧ r ≠ .goneExhausted := by
    intro r h; cases r <;> simp_all [isGoneRedeem]
  constructor
  · cases hf : db.invites.find? (fun i => i.id == inviteId) with
    | none => simp [previewInvite, redeemInvite, hf]
    | some inv =>
      have hp : previewInvite db inviteId now ≠ .inviteNotFound := by
        rw [previewInvite_of_find db inviteId now inv hf]
        split
        · simp
        · split
          · simp
          · split
            · simp
            · split <;> simp
      have hr : (redeemInvite db me inviteId now).1 ≠ .inviteNotFound := by
        rw [redeemInvite_of_find db me inviteId now inv hf]
        split
        · simp
        · split
          · simp
          · split
            · simp
            · split
              · simp
              · split <;> simp
      simp [hp, hr, hf]
  · intro inv hfind
    refine ⟨inviteActive_eq_true_iff inv now, ?_⟩
    cases hrv : inv.revokedAt with
    | some d =>
      have hp : previewInvite db inviteId now = .goneRevoked := by
        rw [previewInvite_of_find db inviteId now inv hfind]
        simp [hrv]
      have hr : (redeemInvite db me inviteId now).1 = .goneRevoked := by
        rw [redeemInvite_of_find db me inviteId now inv hfind]
        simp [hrv]
      have hact : inviteActive inv now = false := by
        simp [inviteActive, hrv]
      rw [hp, hr, hact]
      simp [isGonePreview, isGoneRedeem, hrv]
    | none =>
      cases hex : inviteExpired inv now with
      | true =>
        have hp : previewInvite db inviteId now = .goneExpired := by
          rw [previewInvite_of_find db inviteId now inv hfind]
          simp [hrv, hex]
        have hr : (redeemInvite db me inviteId now).1 = .goneExpired := by
          rw [redeemInvite_of_find db me inviteId now inv hfind]
          simp [hrv, hex]
        have hact : inviteActive inv now = false := by
          simp [inviteActive, hex]
        have hexE : ∃ t, inv.expiresAt = some t ∧ t < now :=
          (inviteExpired_eq_true_iff inv now).mp hex
        rw [hp, hr, hact]
        simp [isGonePreview, isGoneRedeem, hrv, hexE, hex]
      | false =>
        cases hexh : inviteExhausted inv with
        | true =>
          have hp : previewInvite db inviteId now = .goneExhausted := by
            rw [previewInvite_of_find db inviteId now inv hfind]
            simp [hrv, hex, hexh]
          have hr : (redeemInvite db me inviteId now).1 = .goneExhausted := by
            rw [redeemInvite_of_find db me inviteId now inv hfind]
            simp [hrv, hex, hexh]
          have hact : inviteActive inv now = false := by
            simp [inviteActive, hexh]
          have hexF : ¬∃ t, inv.expiresAt = some t ∧ t < now := by
            rw [← inviteExpired_eq_true_iff inv now]; simp [hex]
          have hexhE : ∃ m, inv.maxUses = some m ∧ m ≤ inv.usedCount :=
            (inviteExhausted_eq_true_iff inv).mp hexh
          rw [hp, hr, hact]
          simp [isGonePreview, isGoneRedeem, hrv, hexF, hexhE, hex]
        | false =>
          have hact : inviteActive inv now = true := by
            simp [inviteActive, hrv, hex, hexh]
          have hexF : ¬∃ t, inv.expiresAt = some t ∧ t < now := by
            rw [← inviteExpired_eq_true_iff inv now]; simp [hex]
          have hexhF : ¬∃ m, inv.maxUses = some m ∧ m ≤ inv.usedCount := by
            rw [← inviteExhausted_eq_true_iff inv]; simp [hexh]
          have hpne : isGonePreview (previewInvite db inviteId now)
              = false := by
            rw [previewInvite_of_find db inviteId now inv hfind]
            simp only [hrv, Option.isSome_none, Bool.false_eq_true,
              if_false, hex, hexh]
            split <;> simp [isGonePreview]
          have hrne : isGoneRedeem (redeemInvite db me inviteId now).1
              = false := by
            rw [redeemInvite_of_find db me inviteId now inv hfind]
            simp only [hrv, Option.isSome_none, Bool.false_eq_true,
              if_false, hex, hexh]
            split
            · simp [isGoneRedeem]
            · split <;> simp [isGoneRedeem]
          obtain ⟨p1, p2, p3⟩ := hgone _ hpne
          obtain ⟨q1, q2, q3⟩ := hgoner _ hrne
          simp [hact, hpne, hrne, p1, p2, p3, q1, q2, q3, hrv, hexF, hexhF]

/-- Witness for the amended C3 theorem: the concrete invite expiring at
100 is Gone/expired when previewed at 200, and not Gone when redeemed at
50. -/
theorem invite_terminal_state_contract_witness :
    previewInvite dbBoundaryInvite "inv_0" 200 = .goneExpired ∧
    isGoneRedeem (redeemInvite dbBoundaryInvite "did:imajin:carl" "inv_0"
      50).1 = false ∧
    previewInvite dbBoundaryInvite "inv_9" 200 = .inviteNotFound :=
  ⟨(((invite_terminal_state_contract dbBoundaryInvite "did:imajin:carl"
        "inv_0" 200).2
      ⟨"inv_0", "conv_0", "did:imajin:amy", none, none, 0, some 100, none⟩
      (by decide)).2.2.2.2.1).mpr ⟨by decide, 100, by decide, by decide⟩,
   by
    have h := ((invite_terminal_state_contract dbBoundaryInvite
        "did:imajin:carl" "inv_0" 50).2
      ⟨"inv_0", "conv_0", "did:imajin:amy", none, none, 0, some 100, none⟩
      (by decide)).2.2.1
    have hact : ¬(inviteActive
        ⟨"inv_0", "conv_0", "did:imajin:amy", none, none, 0, some 100, none⟩
        50 = false) := by decide
    exact Bool.eq_false_iff.mpr (fun hx => hact (h.mp hx)),
   ((invite_terminal_state_contract dbBoundaryInvite "did:imajin:carl"
      "inv_9" 200).1.1).mpr (by decide)⟩

/-! ### C6 amended: already-member redemption is idempotent when the
forDid binding does not block it -/

/-- C6 amended: for an active invite whose forDid is unset or names the
consumer, a consumer who is already a participant of the invite's
conversation redeems with alreadyMember and the database is unchanged: no
usedCount increment, no participant row, no system message. -/
theorem redeem_already_member_idempotent (db : Db) (me inviteId : String)
    (now : Nat) (inv : Invite)
    (hfind : db.invites.find? (fun i => i.id == inviteId) = some inv)
    (hactive : inviteActive inv now = true)
    (hfor : inv.forDid = none ∨ inv.forDid = some me)
    (hmem : (findParticipant db inv.conversationId me).isSome = true) :
    redeemInvite db me inviteId now = (.alreadyMember inv.conversationId, db)
    := by
  rw [redeemInvite_of_find db me inviteId now inv hfind]
  simp only [inviteActive, Bool.and_eq_true, Bool.not_eq_true',
    Option.isNone_iff_eq_none] at hactive
  obtain ⟨⟨h1, h2⟩, h3⟩ := hactive
  rcases hfor with hf | hf <;> simp [h1, h2, h3, hf, hmem]

/-- Witness for the amended C6 theorem: amy, already the owner of conv_0,
redeems the unbound active invite inv_0 and nothing changes. -/
theorem redeem_already_member_idempotent_witness :
    redeemInvite dbBoundaryInvite "did:imajin:amy" "inv_0" 50 =
      (.alreadyMember "conv_0", dbBoundaryInvite) :=
  redeem_already_member_idempotent dbBoundaryInvite "did:imajin:amy" "inv_0"
    50 ⟨"inv_0", "conv_0", "did:imajin:amy", none, none, 0, some 100, none⟩
    (by decide) (by decide) (Or.inl (by decide)) (by decide)

/-! ### C9: removal rules -/

/-- C9: self-removal succeeds for every role except owner, an owner's
self-removal fails with the hard ownerCannotLeave error, and removal of
another (existing) participant succeeds iff the requester's role level is
at least admin and strictly greater than the target's. -/
theorem remove_participant_rules (db : Db) (me cid did : String) (now : Nat)
    (my : Participant)
    (hv : isValidDid did = true)
    (hme : findParticipant db cid me = some my) :
    (did = me → my.role ≠ "owner" →
      (removeParticipant db me cid did now).1 = .removed) ∧
    (did = me → my.role = "owner" →
      (removeParticipant db me cid did now).1 = .ownerCannotLeave) ∧
    (did ≠ me → ∀ tgt, findParticipant db cid did = some tgt →
      ((removeParticipant db me cid did now).1 = .removed ↔
        roleLevel "admin" ≤ roleLevel my.role ∧
          roleLevel tgt.role < roleLevel my.role)) := by
  refine ⟨?_, ?_, ?_⟩
  · intro hdm hro
    subst hdm
    unfold removeParticipant
    rw [hv]
    simp [hme, hro]
  · intro hdm hro
    subst hdm
    unfold removeParticipant
    rw [hv]
    simp [hme, hro]
  · intro hdm tgt htgt
    have hbe : (did == me) = false := by simp [hdm]
    unfold removeParticipant
    rw [hv]
    simp only [Bool.not_true, Bool.false_eq_true, if_false, hme, hbe,
      Bool.not_false, Bool.true_and, Bool.false_and]
    cases ha : hasRole my.role "admin" with
    | false =>
      have ha' : ¬ roleLevel "admin" ≤ roleLevel my.role := by
        have h5 := Bool.eq_false_iff.mp ha
        simp only [hasRole, ne_eq, decide_eq_true_eq, ge_iff_le] at h5
        exact h5
      simp [ha, ha']
    | true =>
      have ha' : roleLevel "admin" ≤ roleLevel my.role := by
        simpa [hasRole, ge_iff_le] using ha
      simp only [ha, Bool.not_true, Bool.false_eq_true, if_false, htgt]
      cases ht : hasRole tgt.role my.role with
      | false =>
        have ht' : roleLevel tgt.role < roleLevel my.role := by
          have h5 := Bool.eq_false_iff.mp ht
          simp only [hasRole, ne_eq, decide_eq_true_eq, ge_iff_le] at h5
          omega
        rw [if_neg (by simp)]
        simp [ha', ht']
      | true =>
        have ht' : roleLevel my.role ≤ roleLevel tgt.role := by
          simpa [hasRole, ge_iff_le] using ht
        rw [if_pos rfl]
        exact iff_of_false (by simp) (fun h => absurd ht' (not_le.mpr h.2))

/-- The spec scenario group "Launch": an owner plus members aa and bb. -/
def dbLaunch : Db :=
  { conversations :=
      [⟨"conv_0", "group", some "Launch", none, "private", "did:imajin:own"⟩],
    participants :=
      [⟨"conv_0", "did:imajin:own", "owner", none⟩,
       ⟨"conv_0", "did:imajin:aa", "member", some "did:imajin:own"⟩,
       ⟨"conv_0", "did:imajin:bb", "member", some "did:imajin:own"⟩],
    messages := [], invites := [], nextId := 0 }

/-- Witness for C9 at the spec scenario: in the group with owner `own` and
members `aa` and `bb`, member aa cannot remove member bb, owner own can,
and own cannot leave while owner. -/
theorem remove_participant_rules_witness :
    ((removeParticipant dbLaunch "did:imajin:aa" "conv_0" "did:imajin:bb"
        1).1 = .removed ↔
      roleLevel "admin" ≤ roleLevel "member" ∧
        roleLevel "member" < roleLevel "member") ∧
    ((removeParticipant dbLaunch "did:imajin:own" "conv_0" "did:imajin:bb"
        1).1 = .removed ↔
      roleLevel "admin" ≤ roleLevel "owner" ∧
        roleLevel "member" < roleLevel "owner") ∧
    (removeParticipant dbLaunch "did:imajin:own" "conv_0" "did:imajin:own"
        1).1 = .ownerCannotLeave :=
  ⟨(remove_participant_rules dbLaunch "did:imajin:aa" "conv_0"
      "did:imajin:bb" 1
      ⟨"conv_0", "did:imajin:aa", "member", some "did:imajin:own"⟩
      (by decide) (by decide)).2.2 (by decide)
      ⟨"conv_0", "did:imajin:bb", "member", some "did:imajin:own"⟩
      (by decide),
   (remove_participant_rules dbLaunch "did:imajin:own" "conv_0"
      "did:imajin:bb" 1 ⟨"conv_0", "did:imajin:own", "owner", none⟩
      (by decide) (by decide)).2.2 (by decide)
      ⟨"conv_0", "did:imajin:bb", "member", some "did:imajin:own"⟩
      (by decide),
   (remove_participant_rules dbLaunch "did:imajin:own" "conv_0"
      "did:imajin:own" 1 ⟨"conv_0", "did:imajin:own", "owner", none⟩
      (by decide) (by decide)).2.1 rfl (by decide)⟩

/-! ### C7 amended: the pagination contract -/

/-- C7 amended: a participant's message page holds at most limit (capped
at 100, default 50) qualifying messages - same conversation, not
soft-deleted, strictly older than the cursor message's creation time when
the before id resolves - in chronological order (strictly so when the
qualifying creation times are distinct); the page is a maximal-recency
selection (every qualifying message left out is no newer than every one
returned), and hasMore is true iff exactly limit rows were returned. -/
theorem listMessages_pagination_contract (db : Db) (me cid : String)
    (limitParam : Option Nat) (before : Option String)
    (msgs : List Message) (hasMore : Bool)
    (h : listMessages db me cid limitParam before = .page msgs hasMore) :
    (∀ m ∈ msgs, m.conversationId = cid ∧ m.deletedAt = none ∧
      ∀ t, cursorTime db before = some t → m.createdAt < t) ∧
    msgs.length ≤ min (limitParam.getD 50) 100 ∧
    msgs.Pairwise (fun a b => a.createdAt ≤ b.createdAt) ∧
    (hasMore = true ↔ msgs.length = min (limitParam.getD 50) 100) ∧
    (∃ rest, (qualifyingMessages db cid before).Perm (msgs ++ rest) ∧
      ∀ x ∈ rest, ∀ a ∈ msgs, x.createdAt ≤ a.createdAt) ∧
    ((qualifyingMessages db cid before).Pairwise
        (fun a b => a.createdAt ≠ b.createdAt) →
      msgs.Pairwise (fun a b => a.createdAt < b.createdAt)) := by
  unfold listMessages at h
  cases hf : findParticipant db cid me with
  | none => rw [hf] at h; simp at h
  | some p =>
    rw [hf] at h
    simp only [ListResult.page.injEq] at h
    obtain ⟨hm, hh⟩ := h
    set L := min (limitParam.getD 50) 100 with hL
    set Q := qualifyingMessages db cid before with hQ
    set S := List.insertionSort byCreatedDesc Q with hS
    subst hm
    subst hh
    have hsortS : S.Pairwise byCreatedDesc := List.sorted_insertionSort _ _
    have hpermS : S.Perm Q := List.perm_insertionSort _ _
    have hsub : List.Sublist (S.take L) S := List.take_sublist _ _
    have hsort_take : (S.take L).Pairwise byCreatedDesc :=
      hsortS.sublist hsub
    have hsorted : ((S.take L).reverse).Pairwise
        (fun a b => a.createdAt ≤ b.createdAt) := by
      rw [List.pairwise_reverse]
      exact hsort_take.imp (fun hab => hab)
    have hsplit : (S.take L ++ S.drop L).Pairwise byCreatedDesc := by
      rw [List.take_append_drop]
      exact hsortS
    refine ⟨?_, ?_, hsorted, ?_, ?_, ?_⟩
    · intro m hm1
      rw [List.mem_reverse] at hm1
      have hmQ : m ∈ Q := hpermS.mem_iff.mp (List.take_subset _ _ hm1)
      rw [hQ] at hmQ
      unfold qualifyingMessages at hmQ
      rw [List.mem_filter] at hmQ
      obtain ⟨-, hc⟩ := hmQ
      simp only [Bool.and_eq_true, beq_iff_eq,
        Option.isNone_iff_eq_none] at hc
      obtain ⟨⟨h1, h2⟩, h3⟩ := hc
      refine ⟨h1, h2, fun t ht => ?_⟩
      rw [ht] at h3
      exact of_decide_eq_true h3
    · rw [List.length_reverse, List.length_take]
      exact Nat.min_le_left _ _
    · rw [List.length_reverse]
      simp
    · refine ⟨S.drop L, ?_, ?_⟩
      · have h1 : Q.Perm S := hpermS.symm
        have h2 : S = S.take L ++ S.drop L := (List.take_append_drop L S).symm
        have h3 : (S.take L ++ S.drop L).Perm
            ((S.take L).reverse ++ S.drop L) :=
          ((List.reverse_perm (S.take L)).symm).append_right _
        rw [h2] at h1
        exact h1.trans h3
      · intro x hx a ha
        rw [List.mem_reverse] at ha
        exact (List.pairwise_append.mp hsplit).2.2 a ha x hx
    · intro hnd
      have hndS : S.Pairwise (fun a b => a.createdAt ≠ b.createdAt) :=
        (List.Perm.pairwise_iff (fun hab => hab.symm) hpermS).mpr hnd
      have hnd_take := hndS.sublist hsub
      have hnd_rev : ((S.take L).reverse).Pairwise
          (fun a b => a.createdAt ≠ b.createdAt) := by
        rw [List.pairwise_reverse]
        exact hnd_take.imp (fun hab => hab.symm)
      exact (hsorted.and hnd_rev).imp
        (fun hab => lt_of_le_of_ne hab.1 hab.2)

/-- Witness for the amended C7 theorem on the four-message conversation:
the first page is [t3, t4] with hasMore true, the page before t3 is
[t1, t2] (with hasMore true, its length being exactly the limit), and the
theorem's conclusions hold at this input. -/
theorem listMessages_pagination_contract_witness :
    listMessages dbFourMessages "did:imajin:amy" "conv_0" (some 2) none =
      .page [pageMsg "msg_3" 30, pageMsg "msg_4" 40] true ∧
    (true = true ↔
      ([pageMsg "msg_3" 30, pageMsg "msg_4" 40] : List Message).length =
        min ((some 2 : Option Nat).getD 50) 100) ∧
    (∀ m ∈ [pageMsg "msg_1" 10, pageMsg "msg_2" 20],
      m.conversationId = "conv_0" ∧ m.deletedAt = none ∧
      ∀ t, cursorTime dbFourMessages (some "msg_3") = some t →
        m.createdAt < t) :=
  ⟨by decide,
   (listMessages_pagination_contract dbFourMessages "did:imajin:amy"
      "conv_0" (some 2) none [pageMsg "msg_3" 30, pageMsg "msg_4" 40] true
      (by decide)).2.2.2.1,
   (listMessages_pagination_contract dbFourMessages "did:imajin:amy"
      "conv_0" (some 2) (some "msg_3")
      [pageMsg "msg_1" 10, pageMsg "msg_2" 20] true (by decide)).1⟩

/-! ### C5: deduplication of direct conversations -/

/-- find? respects pointwise equal predicates. -/
theorem find?_congr_pred {α : Type} {p q : α → Bool}
    (h : ∀ a, p a = q a) : ∀ l : List α, l.find? p = l.find? q := by
  intro l
  induction l with
  | nil => rfl
  | cons a l ih =>
    simp only [List.find?]
    rw [h a]
    cases q a <;> simp [ih]

/-- Membership in the dedup scan rows. -/
theorem mem_dedupRows {db : Db} {me otherDid cid d : String} :
    (cid, d) ∈ dedupRows db me otherDid ↔
      convIsDirect db cid = true ∧ (d = me ∨ d = otherDid) ∧
        ∃ p ∈ db.participants, p.conversationId = cid ∧ p.did = d := by
  unfold dedupRows
  rw [List.mem_map]
  constructor
  · rintro ⟨p, hp, heq⟩
    rw [List.mem_filter] at hp
    obtain ⟨hmem, hcond⟩ := hp
    obtain ⟨hcid, hdid⟩ := Prod.mk.injEq .. ▸ heq
    subst hcid
    subst hdid
    simp only [Bool.and_eq_true, Bool.or_eq_true, beq_iff_eq] at hcond
    exact ⟨hcond.1, hcond.2, p, hmem, rfl, rfl⟩
  · rintro ⟨hdir, hd, p, hmem, hcid, hdid⟩
    refine ⟨p, ?_, by rw [hcid, hdid]⟩
    rw [List.mem_filter]
    refine ⟨hmem, ?_⟩
    simp only [Bool.and_eq_true, Bool.or_eq_true, beq_iff_eq]
    rw [hcid, hdid]
    exact ⟨hdir, hd⟩

/-- convIsDirect through the conversation lookup. -/
theorem convIsDirect_iff {db : Db} {cid : String} :
    convIsDirect db cid = true ↔
      ∃ c, db.conversations.find? (fun c => c.id == cid) = some c ∧
        c.ctype = "direct" := by
  unfold convIsDirect
  cases h : db.conversations.find? (fun c => c.id == cid) <;> simp [h]

/-- With duplicate-free conversation ids, the lookup of a member's id
finds that member. -/
theorem find_conv_of_mem {db : Db} {c : Conversation}
    (hids : (db.conversations.map (·.id)).Nodup)
    (hc : c ∈ db.conversations) :
    db.conversations.find? (fun x => x.id == c.id) = some c := by
  have h1 : (db.conversations.find? (fun x => x.id == c.id)).isSome :=
    List.find?_isSome.mpr ⟨c, hc, by simp⟩
  obtain ⟨c', hc'⟩ := Option.isSome_iff_exists.mp h1
  have hmem := List.mem_of_find?_eq_some hc'
  have hpred : c'.id = c.id := by
    have := List.find?_some hc'
    simpa using this
  have := List.inj_on_of_nodup_map hids hmem hc (by simp [hpred])
  rw [hc', this]

/-- What a successful dedup scan guarantees: the first matching
conversation id resolves to a direct conversation that has both
identities among its participants. -/
theorem findDedupConv_spec {db : Db} {me otherDid cid : String}
    (hfd : findDedupConv db me otherDid = some cid) :
    ∃ c, db.conversations.find? (fun x => x.id == cid) = some c ∧
      c ∈ db.conversations ∧ c.id = cid ∧ c.ctype = "direct" ∧
      (∃ p ∈ db.participants, p.conversationId = cid ∧ p.did = me) ∧
      (∃ p ∈ db.participants, p.conversationId = cid ∧ p.did = otherDid)
    := by
  have hpred := List.find?_some hfd
  simp only [Bool.and_eq_true] at hpred
  obtain ⟨hca, hcb⟩ := hpred
  have hma : (cid, me) ∈ dedupRows db me otherDid := by
    rw [← List.elem_iff]
    exact hca
  have hmb : (cid, otherDid) ∈ dedupRows db me otherDid := by
    rw [← List.elem_iff]
    exact hcb
  obtain ⟨hdir, -, pa, hpa, hpa1, hpa2⟩ := mem_dedupRows.mp hma
  obtain ⟨-, -, pb, hpb, hpb1, hpb2⟩ := mem_dedupRows.mp hmb
  obtain ⟨c, hfc, hcd⟩ := convIsDirect_iff.mp hdir
  have hcid : c.id = cid := by
    have := List.find?_some hfc
    simpa using this
  exact ⟨c, hfc, List.mem_of_find?_eq_some hfc, hcid, hcd,
    ⟨pa, hpa, hpa1, hpa2⟩, ⟨pb, hpb, hpb1, hpb2⟩⟩

/-- The dedup scan succeeds iff some direct conversation has both
identities among its participants (conversation ids assumed
duplicate-free, as the primary key guarantees). -/
theorem findDedupConv_isSome_iff {db : Db} {me otherDid : String}
    (hids : (db.conversations.map (·.id)).Nodup) :
    (findDedupConv db me otherDid).isSome ↔
      ∃ c ∈ db.conversations, c.ctype = "direct" ∧
        (∃ p ∈ db.participants, p.conversationId = c.id ∧ p.did = me) ∧
        (∃ p ∈ db.participants, p.conversationId = c.id ∧ p.did = otherDid)
    := by
  constructor
  · intro h
    obtain ⟨cid, hfd⟩ := Option.isSome_iff_exists.mp h
    obtain ⟨c, _, hmem, hcid, hcd, hpa, hpb⟩ := findDedupConv_spec hfd
    exact ⟨c, hmem, hcd, by rw [hcid]; exact hpa, by rw [hcid]; exact hpb⟩
  · rintro ⟨c, hc, hcd, ⟨pa, hpa, hpa1, hpa2⟩, ⟨pb, hpb, hpb1, hpb2⟩⟩
    have hdir : convIsDirect db c.id = true :=
      convIsDirect_iff.mpr ⟨c, find_conv_of_mem hids hc, hcd⟩
    have hma : (c.id, me) ∈ dedupRows db me otherDid :=
      mem_dedupRows.mpr ⟨hdir, Or.inl rfl, pa, hpa, hpa1, hpa2⟩
    have hmb : (c.id, otherDid) ∈ dedupRows db me otherDid :=
      mem_dedupRows.mpr ⟨hdir, Or.inr rfl, pb, hpb, hpb1, hpb2⟩
    unfold findDedupConv
    rw [List.find?_isSome]
    refine ⟨c.id, List.mem_map_of_mem _ hma, ?_⟩
    simp only [Bool.and_eq_true]
    exact ⟨List.elem_iff.mpr hma, List.elem_iff.mpr hmb⟩

/-- The dedup scan is symmetric in the two identities. -/
theorem findDedupConv_comm (db : Db) (me otherDid : String) :
    findDedupConv db me otherDid = findDedupConv db otherDid me := by
  have hrows : dedupRows db me otherDid = dedupRows db otherDid me := by
    unfold dedupRows
    congr 1
    apply List.filter_congr
    intro p _
    rw [Bool.or_comm]
  unfold findDedupConv
  rw [hrows]
  apply find?_congr_pred
  intro a
  rw [Bool.and_comm]

/-- Evaluation of the create handler for a direct conversation with one
valid other participant: the validation gates pass and the outcome is
decided by the dedup scan. -/
theorem createConversation_direct (db : Db) (A B : String)
    (nm ds : Option String) (vis : String) (now : Nat)
    (hB : isValidDid B = true) :
    createConversation db A "direct" nm ds [B] vis now =
      (match findDedupConv db A B with
       | some convId =>
         (.existingConv (db.conversations.find? (fun c => c.id == convId)),
           db)
       | none => mkConversation db A "direct" nm ds [B] vis now) := by
  unfold createConversation
  rw [if_neg (by decide)]
  rw [if_neg (by simp)]
  have hfind : ([B].find? (fun d => !isValidDid d)) = none := by
    simp [hB]
  rw [hfind]
  rw [if_pos (by decide)]

/-- The create handler when the dedup scan finds a conversation. -/
theorem createConversation_direct_found (db : Db) (A B cid : String)
    (nm ds : Option String) (vis : String) (now : Nat)
    (hB : isValidDid B = true)
    (hfd : findDedupConv db A B = some cid) :
    createConversation db A "direct" nm ds [B] vis now =
      (.existingConv (db.conversations.find? (fun c => c.id == cid)), db)
    := by
  rw [createConversation_direct db A B nm ds vis now hB, hfd]

/-- The create handler when the dedup scan finds nothing. -/
theorem createConversation_direct_none (db : Db) (A B : String)
    (nm ds : Option String) (vis : String) (now : Nat)
    (hB : isValidDid B = true)
    (hfd : findDedupConv db A B = none) :
    createConversation db A "direct" nm ds [B] vis now =
      mkConversation db A "direct" nm ds [B] vis now := by
  rw [createConversation_direct db A B nm ds vis now hB, hfd]

/-- Evaluation of the creation tail for a fresh direct conversation: the
requester becomes owner, the other identity becomes member, and no system
message is appended. -/
theorem mkConversation_direct (db : Db) (A B : String)
    (nm ds : Option String) (vis : String) (now : Nat)
    (hAB : A ≠ B)
    (hfresh : ∀ c ∈ db.conversations, c.id ≠ generateId "conv" db.nextId) :
    mkConversation db A "direct" nm ds [B] vis now =
      (.created (some ⟨generateId "conv" db.nextId, "direct",
          if nm.getD "" == "" then none else nm, ds, vis, A⟩),
        { db with
            conversations := db.conversations ++
              [⟨generateId "conv" db.nextId, "direct",
                if nm.getD "" == "" then none else nm, ds, vis, A⟩],
            participants := db.participants ++
              [⟨generateId "conv" db.nextId, A, "owner", none⟩] ++
              [⟨generateId "conv" db.nextId, B, "member", some A⟩],
            nextId := db.nextId + 2 }) := by
  unfold mkConversation
  have hflt : ([B].filter (fun d => d != A)) = [B] := by
    simp [bne_iff_ne, hAB.symm]
  have hnone : db.conversations.find?
      (fun c => c.id == generateId "conv" db.nextId) = none :=
    List.find?_eq_none.mpr (fun c hc => by simp [hfresh c hc])
  simp only [hflt, List.map_cons, List.map_nil]
  simp [hnone]

/-- C5: direct-conversation creation is idempotent.  When a direct
conversation containing both identities exists, POST from either
initiator returns the same found conversation with existing=true and a
completely unchanged database; otherwise a new conversation is created
with the requester as owner and the other identity as member, and no
message rows.  Conversation ids are assumed duplicate-free (primary key)
and the generated id fresh (generateId randomness). -/
theorem direct_creation_idempotent (db : Db) (A B : String)
    (nm ds : Option String) (vis : String) (now : Nat)
    (hAB : A ≠ B)
    (hA : isValidDid A = true) (hB : isValidDid B = true)
    (hids : (db.conversations.map (·.id)).Nodup)
    (hfresh : ∀ c ∈ db.conversations, c.id ≠ generateId "conv" db.nextId) :
    ((∃ c ∈ db.conversations, c.ctype = "direct" ∧
        (∃ p ∈ db.participants, p.conversationId = c.id ∧ p.did = A) ∧
        (∃ p ∈ db.participants, p.conversationId = c.id ∧ p.did = B)) →
      ∃ c ∈ db.conversations, c.ctype = "direct" ∧
        (∃ p ∈ db.participants, p.conversationId = c.id ∧ p.did = A) ∧
        (∃ p ∈ db.participants, p.conversationId = c.id ∧ p.did = B) ∧
        createConversation db A "direct" nm ds [B] vis now =
          (.existingConv (some c), db) ∧
        createConversation db B "direct" nm ds [A] vis now =
          (.existingConv (some c), db)) ∧
    ((¬∃ c ∈ db.conversations, c.ctype = "direct" ∧
        (∃ p ∈ db.participants, p.conversationId = c.id ∧ p.did = A) ∧
        (∃ p ∈ db.participants, p.conversationId = c.id ∧ p.did = B)) →
      createConversation db A "direct" nm ds [B] vis now =
        (.created (some ⟨generateId "conv" db.nextId, "direct",
            if nm.getD "" == "" then none else nm, ds, vis, A⟩),
          { db with
              conversations := db.conversations ++
                [⟨generateId "conv" db.nextId, "direct",
                  if nm.getD "" == "" then none else nm, ds, vis, A⟩],
              participants := db.participants ++
                [⟨generateId "conv" db.nextId, A, "owner", none⟩] ++
                [⟨generateId "conv" db.nextId, B, "member", some A⟩],
              nextId := db.nextId + 2 })) := by
  constructor
  · intro hex
    have hsome := (findDedupConv_isSome_iff hids).mpr hex
    obtain ⟨cid, hfd⟩ := Option.isSome_iff_exists.mp hsome
    obtain ⟨c, hfc, hmem, hcid, hcd, hpa, hpb⟩ := findDedupConv_spec hfd
    have hfd' : findDedupConv db B A = some cid := by
      rw [← findDedupConv_comm]
      exact hfd
    refine ⟨c, hmem, hcd, ?_, ?_, ?_, ?_⟩
    · rw [hcid]
      exact hpa
    · rw [hcid]
      exact hpb
    · rw [createConversation_direct_found db A B cid nm ds vis now hB hfd,
        hfc]
    · rw [createConversation_direct_found db B A cid nm ds vis now hA hfd',
        hfc]
  · intro hnone
    have h0 : findDedupConv db A B = none := by
      cases h : findDedupConv db A B with
      | none => rfl
      | some cid =>
        exact absurd ((findDedupConv_isSome_iff hids).mp
          (by rw [h]; rfl)) hnone
    rw [createConversation_direct_none db A B nm ds vis now hB h0]
    exact mkConversation_direct db A B nm ds vis now hAB hfresh

/-- Witness for C5: with the direct conversation conv_0 between amy and
bob already present, creation from either initiator returns it unchanged
with existing=true. -/
theorem direct_creation_idempotent_witness :
    ∃ c ∈ dbDirectPair.conversations, c.ctype = "direct" ∧
      (∃ p ∈ dbDirectPair.participants, p.conversationId = c.id ∧
        p.did = "did:imajin:amy") ∧
      (∃ p ∈ dbDirectPair.participants, p.conversationId = c.id ∧
        p.did = "did:imajin:bob") ∧
      createConversation dbDirectPair "did:imajin:amy" "direct" none none
        ["did:imajin:bob"] "private" 4 =
        (.existingConv (some c), dbDirectPair) ∧
      createConversation dbDirectPair "did:imajin:bob" "direct" none none
        ["did:imajin:amy"] "private" 4 =
        (.existingConv (some c), dbDirectPair) :=
  (direct_creation_idempotent dbDirectPair "did:imajin:amy"
    "did:imajin:bob" none none "private" 4 (by decide) (by decide)
    (by decide) (by decide) (by decide)).1 (by decide)

/-! ### C4 amended: a direct conversation starts with exactly two
distinct participants -/

/-- C4 amended: when no direct conversation between the two distinct
identities exists yet, creation produces a conversation whose participant
rows are exactly the requester as owner and the other identity as member
- two distinct participants.  (The post-creation operations do not check
the conversation type and so do not preserve this.) -/
theorem direct_creation_two_distinct_participants (db : Db) (A B : String)
    (nm ds : Option String) (vis : String) (now : Nat)
    (hAB : A ≠ B) (hB : isValidDid B = true)
    (hfd : findDedupConv db A B = none)
    (hfreshc : ∀ c ∈ db.conversations, c.id ≠ generateId "conv" db.nextId)
    (hfreshp : ∀ p ∈ db.participants,
      p.conversationId ≠ generateId "conv" db.nextId) :
    ((createConversation db A "direct" nm ds [B] vis now).2.participants.filter
        (fun p => p.conversationId == generateId "conv" db.nextId)) =
      [⟨generateId "conv" db.nextId, A, "owner", none⟩,
       ⟨generateId "conv" db.nextId, B, "member", some A⟩] ∧
    countParticipants (createConversation db A "direct" nm ds [B] vis
      now).2 (generateId "conv" db.nextId) = 2 ∧ A ≠ B := by
  rw [createConversation_direct_none db A B nm ds vis now hB hfd,
    mkConversation_direct db A B nm ds vis now hAB hfreshc]
  have h1 : db.participants.filter
      (fun p => p.conversationId == generateId "conv" db.nextId) = [] := by
    rw [List.filter_eq_nil_iff]
    intro p hp
    simp [hfreshp p hp]
  refine ⟨?_, ?_, hAB⟩
  · simp [List.filter_append, h1]
  · unfold countParticipants
    simp [List.filter_append, h1]

/-- Witness for the amended C4 theorem on an empty database. -/
theorem direct_creation_two_distinct_participants_witness :
    ((createConversation (⟨[], [], [], [], 0⟩ : Db) "did:imajin:amy"
        "direct" none none ["did:imajin:bob"] "private" 9).2.participants.filter
      (fun p => p.conversationId == generateId "conv" 0)) =
      [⟨generateId "conv" 0, "did:imajin:amy", "owner", none⟩,
       ⟨generateId "conv" 0, "did:imajin:bob", "member",
         some "did:imajin:amy"⟩] ∧
    countParticipants (createConversation (⟨[], [], [], [], 0⟩ : Db)
      "did:imajin:amy" "direct" none none ["did:imajin:bob"] "private"
      9).2 (generateId "conv" 0) = 2 ∧
    "did:imajin:amy" ≠ "did:imajin:bob" :=
  direct_creation_two_distinct_participants ⟨[], [], [], [], 0⟩
    "did:imajin:amy" "did:imajin:bob" none none "private" 9 (by decide)
    (by decide) (by decide) (by decide) (by decide)

/-! ### C1 amended: one owner is preserved when no add assigns "owner" -/

/-- A participant operation on a conversation: add, set role, or
remove, each with the authenticated requester and a request time. -/
inductive POp where
  | add (identityId did role : String) (now : Nat)
  | set (identityId did role : String) (now : Nat)
  | rem (identityId did : String) (now : Nat)

/-- Running one participant operation against the store (the response is
discarded; failed requests leave the store unchanged by construction). -/
def applyOp (cid : String) (db : Db) (op : POp) : Db :=
  match op with
  | .add i d r n => (addParticipant db i cid d r n).2
  | .set i d r n => (setParticipantRole db i cid d r n).2
  | .rem i d n => (removeParticipant db i cid d n).2

/-- The dids of a conversation's participant rows. -/
def convDids (db : Db) (cid : String) : List String :=
  (db.participants.filter (fun p => p.conversationId == cid)).map (·.did)

/-- Evaluation of the add handler once the requester lookup resolves. -/
theorem addParticipant_of_find (db : Db) (i cid d r : String) (n : Nat)
    (my : Participant) (hf : findParticipant db cid i = some my) :
    addParticipant db i cid d r n =
      (if !hasRole my.role "admin" then (.permissionDenied, db)
       else if !isValidDid d then (.invalidDid, db)
       else if my.role != "owner" && hasRole r my.role then
         (.roleTooHigh, db)
       else if (findParticipant db cid d).isSome then
         (.alreadyParticipant, db)
       else
        let p : Participant := ⟨cid, d, r, some i⟩
        let m : Message :=
          ⟨generateId "msg" db.nextId, cid, i,
            ⟨some "system", some (i ++ " added " ++ d)⟩,
            "system", none, n, none⟩
        let db' : Db :=
          { db with participants := db.participants ++ [p],
                    messages := db.messages ++ [m],
                    nextId := db.nextId + 1 }
        (.created (findParticipant db' cid d), db')) := by
  unfold addParticipant
  rw [hf]

/-- Evaluation of the set-role handler once the did validates, the role
is in the allowed list, and the requester lookup resolves. -/
theorem setParticipantRole_of_find (db : Db) (i cid d r : String) (n : Nat)
    (my : Participant)
    (hv : isValidDid d = true)
    (hrole : (["readonly", "member", "admin"].contains r) = true)
    (hf : findParticipant db cid i = some my) :
    setParticipantRole db i cid d r n =
      (if my.role != "owner" then (.notOwner, db)
       else if d == i then (.selfChange, db)
       else
        let m : Message :=
          ⟨generateId "msg" db.nextId, cid, i,
            ⟨some "system",
              some (i ++ " changed " ++ d ++ " role to " ++ r)⟩,
            "system", none, n, none⟩
        let db' : Db :=
          { db with
              participants := db.participants.map (fun p =>
                if p.conversationId == cid && p.did == d then
                  { p with role := r }
                else p),
              messages := db.messages ++ [m],
              nextId := db.nextId + 1 }
        (.updated, db')) := by
  unfold setParticipantRole
  rw [hv, hrole, hf]
  rfl

/-- Evaluation of the remove handler when the target lookup fails. -/
theorem removeParticipant_no_target (db : Db) (i cid d : String) (n : Nat)
    (my : Participant)
    (hv : isValidDid d = true)
    (hf : findParticipant db cid i = some my)
    (ht : findParticipant db cid d = none) :
    removeParticipant db i cid d n =
      (if !(d == i) && !hasRole my.role "admin" then (.permissionDenied, db)
       else if (d == i) && my.role == "owner" then (.ownerCannotLeave, db)
       else (.targetNotFound, db)) := by
  unfold removeParticipant
  rw [hv, hf, ht]
  rfl

/-- Evaluation of the remove handler when both lookups resolve. -/
theorem removeParticipant_of_both (db : Db) (i cid d : String) (n : Nat)
    (my tgt : Participant)
    (hv : isValidDid d = true)
    (hf : findParticipant db cid i = some my)
    (ht : findParticipant db cid d = some tgt) :
    removeParticipant db i cid d n =
      (if !(d == i) && !hasRole my.role "admin" then (.permissionDenied, db)
       else if (d == i) && my.role == "owner" then (.ownerCannotLeave, db)
       else if !(d == i) && hasRole tgt.role my.role then
         (.targetTooHigh, db)
       else
        let action := if (d == i) then "left the group" else "removed " ++ d
        let m : Message :=
          ⟨generateId "msg" db.nextId, cid, i,
            ⟨some "system", some (i ++ " " ++ action)⟩,
            "system", none, n, none⟩
        let db' : Db :=
          { db with
              participants := db.participants.filter (fun p =>
                !(p.conversationId == cid && p.did == d)),
              messages := db.messages ++ [m],
              nextId := db.nextId + 1 }
        (.removed, db')) := by
  unfold removeParticipant
  rw [hv, hf, ht]
  rfl

/-- The one-owner invariant (with duplicate-free dids) survives any add
that does not assign the role "owner". -/
theorem addParticipant_preserves (db : Db) (cid i d r : String) (n : Nat)
    (hr : r ≠ "owner")
    (hnd : (convDids db cid).Nodup) (hone : countOwners db cid = 1) :
    (convDids (addParticipant db i cid d r n).2 cid).Nodup ∧
      countOwners (addParticipant db i cid d r n).2 cid = 1 := by
  cases hf : findParticipant db cid i with
  | none =>
    unfold addParticipant
    rw [hf]
    exact ⟨hnd, hone⟩
  | some my =>
    rw [addParticipant_of_find db i cid d r n my hf]
    by_cases h1 : (!hasRole my.role "admin") = true
    · rw [if_pos h1]; exact ⟨hnd, hone⟩
    · rw [if_neg h1]
      by_cases h2 : (!isValidDid d) = true
      · rw [if_pos h2]; exact ⟨hnd, hone⟩
      · rw [if_neg h2]
        by_cases h3 : (my.role != "owner" && hasRole r my.role) = true
        · rw [if_pos h3]; exact ⟨hnd, hone⟩
        · rw [if_neg h3]
          by_cases h4 : (findParticipant db cid d).isSome = true
          · rw [if_pos h4]; exact ⟨hnd, hone⟩
          · rw [if_neg h4]
            have hnotmem : d ∉ convDids db cid := by
              intro hd
              unfold convDids at hd
              rw [List.mem_map] at hd
              obtain ⟨p, hp, hpd⟩ := hd
              rw [List.mem_filter] at hp
              refine h4 ?_
              unfold findParticipant
              rw [List.find?_isSome]
              exact ⟨p, hp.1, by simp [hp.2, hpd]⟩
            constructor
            · unfold convDids at hnd hnotmem ⊢
              simp only [List.filter_append, List.map_append]
              have hsingle : ([(⟨cid, d, r, some i⟩ : Participant)].filter
                  (fun p => p.conversationId == cid)) =
                  [⟨cid, d, r, some i⟩] := by simp
              rw [hsingle]
              rw [List.nodup_append]
              refine ⟨hnd, by simp, ?_⟩
              intro a ha hb
              simp only [List.map_cons, List.map_nil, List.mem_cons,
                List.not_mem_nil, or_false] at hb
              subst hb
              exact hnotmem ha
            · unfold countOwners at hone ⊢
              simp only [List.filter_append, List.length_append]
              have hsingle : ([(⟨cid, d, r, some i⟩ : Participant)].filter
                  (fun p => p.conversationId == cid && p.role == "owner"))
                  = [] := by simp [hr]
              rw [hsingle]
              simp [hone]

/-- A role update touches neither the conversation ids nor the dids of
the participant rows. -/
theorem convDids_roleUpdate (P : List Participant) (cid d r : String) :
    ((P.map (fun p => if p.conversationId == cid && p.did == d then
        { p with role := r } else p)).filter
      (fun p => p.conversationId == cid)).map (·.did) =
    (P.filter (fun p => p.conversationId == cid)).map (·.did) := by
  induction P with
  | nil => rfl
  | cons p P ih =>
    simp only [List.map_cons, List.filter_cons]
    cases hM : (p.conversationId == cid && p.did == d) with
    | true =>
      obtain ⟨hc, hd⟩ :
          (p.conversationId == cid) = true ∧ (p.did == d) = true := by
        simpa using hM
      have hc' : ((if true = true then
          { p with role := r } else p).conversationId == cid) = true := hc
      rw [if_pos hc', if_pos hc, List.map_cons, List.map_cons, ih]
      rfl
    | false =>
      have hrw : (if false = true then { p with role := r } else p) = p :=
        if_neg (by simp)
      rw [hrw]
      cases hc2 : (p.conversationId == cid) with
      | true =>
        rw [if_pos rfl, if_pos rfl, List.map_cons, List.map_cons, ih]
      | false =>
        rw [if_neg (by simp), if_neg (by simp)]
        exact ih

/-- Updating the matching rows to a non-owner role: the remaining owner
rows of the conversation are the previous ones whose did is not the
target's. -/
theorem filter_owner_roleUpdate (P : List Participant) (cid d r : String)
    (hr : r ≠ "owner") :
    ((P.map (fun p => if p.conversationId == cid && p.did == d then
        { p with role := r } else p)).filter
      (fun p => p.conversationId == cid && p.role == "owner")) =
    ((P.filter (fun p => p.conversationId == cid && p.role == "owner")).filter
      (fun p => !(p.did == d))) := by
  induction P with
  | nil => rfl
  | cons p P ih =>
    simp only [List.map_cons, List.filter_cons]
    cases hM : (p.conversationId == cid && p.did == d) with
    | true =>
      obtain ⟨hc, hd⟩ :
          (p.conversationId == cid) = true ∧ (p.did == d) = true := by
        simpa using hM
      have hhead : (if true = true then ({ p with role := r } : Participant)
          else p) = { p with role := r } := if_pos rfl
      rw [hhead]
      rw [if_neg (by simp [hr])]
      cases hro : (p.role == "owner") with
      | true =>
        rw [if_pos (by simp [hc, hro]), List.filter_cons,
          if_neg (by simp [hd])]
        exact ih
      | false =>
        rw [if_neg (by simp [hro])]
        exact ih
    | false =>
      have hhead : (if false = true then ({ p with role := r } : Participant)
          else p) = p := if_neg (by simp)
      rw [hhead]
      cases hpo : (p.conversationId == cid && p.role == "owner") with
      | true =>
        have hcd : (p.conversationId == cid) = true := by
          obtain ⟨h5, -⟩ :
              (p.conversationId == cid) = true ∧
                (p.role == "owner") = true := by simpa using hpo
          exact h5
        have hdd : (p.did == d) = false := by
          cases hdd2 : (p.did == d) with
          | true => rw [hcd, hdd2] at hM; simp at hM
          | false => rfl
        rw [if_pos rfl, if_pos rfl, List.filter_cons,
          if_pos (by simp [hdd]), ih]
      | false =>
        rw [if_neg (by simp), if_neg (by simp)]
        exact ih

/-- The one-owner invariant (with duplicate-free dids) survives every
role change: the allowed roles exclude "owner" and the requester - under
the invariant, the unique owner - cannot target itself. -/
theorem setParticipantRole_preserves (db : Db) (cid i d r : String)
    (n : Nat)
    (hnd : (convDids db cid).Nodup) (hone : countOwners db cid = 1) :
    (convDids (setParticipantRole db i cid d r n).2 cid).Nodup ∧
      countOwners (setParticipantRole db i cid d r n).2 cid = 1 := by
  cases hv : isValidDid d with
  | false => unfold setParticipantRole; rw [hv]; exact ⟨hnd, hone⟩
  | true =>
    cases hrole : (["readonly", "member", "admin"].contains r) with
    | false => unfold setParticipantRole; rw [hv, hrole]; exact ⟨hnd, hone⟩
    | true =>
      cases hf : findParticipant db cid i with
      | none =>
        unfold setParticipantRole
        rw [hv, hrole, hf]
        exact ⟨hnd, hone⟩
      | some my =>
        rw [setParticipantRole_of_find db i cid d r n my hv hrole hf]
        by_cases hro : (my.role != "owner") = true
        · rw [if_pos hro]; exact ⟨hnd, hone⟩
        · rw [if_neg hro]
          by_cases hdi : (d == i) = true
          · rw [if_pos hdi]; exact ⟨hnd, hone⟩
          · rw [if_neg hdi]
            have hmyrole : my.role = "owner" := by
              simpa [bne_iff_ne] using hro
            have hrne : r ≠ "owner" := by
              have hmem : r = "readonly" ∨ r = "member" ∨ r = "admin" := by
                simpa using hrole
              rcases hmem with h | h | h <;> (rw [h]; decide)
            have hfp := hf
            unfold findParticipant at hfp
            have hmy_pred := List.find?_some hfp
            have hmyc : my.conversationId = cid := by
              have := (by simpa using hmy_pred :
                my.conversationId = cid ∧ my.did = i)
              exact this.1
            have hmyd : my.did = i := by
              have := (by simpa using hmy_pred :
                my.conversationId = cid ∧ my.did = i)
              exact this.2
            have hmyP : my ∈ db.participants :=
              List.mem_of_find?_eq_some hfp
            constructor
            · unfold convDids at hnd ⊢
              rw [convDids_roleUpdate]
              exact hnd
            · unfold countOwners at hone ⊢
              rw [filter_owner_roleUpdate db.participants cid d r hrne]
              obtain ⟨q, hq⟩ := List.length_eq_one.mp hone
              rw [hq]
              have hmy_in_filter : my ∈ db.participants.filter
                  (fun p => p.conversationId == cid &&
                    p.role == "owner") :=
                List.mem_filter.mpr ⟨hmyP, by simp [hmyc, hmyrole]⟩
              rw [hq] at hmy_in_filter
              have hqm : my = q := by simpa using hmy_in_filter
              have hqd : (q.did == d) = false := by
                rw [← hqm, hmyd]
                simp only [beq_eq_false_iff_ne]
                intro h
                rw [h] at hdi
                simp at hdi
              simp [List.filter_cons, hqd]

/-- The one-owner invariant (with duplicate-free dids) survives every
removal: an owner can neither leave nor be removed by anyone. -/
theorem removeParticipant_preserves (db : Db) (cid i d : String) (n : Nat)
    (hnd : (convDids db cid).Nodup) (hone : countOwners db cid = 1) :
    (convDids (removeParticipant db i cid d n).2 cid).Nodup ∧
      countOwners (removeParticipant db i cid d n).2 cid = 1 := by
  cases hv : isValidDid d with
  | false => unfold removeParticipant; rw [hv]; exact ⟨hnd, hone⟩
  | true =>
    cases hf : findParticipant db cid i with
    | none => unfold removeParticipant; rw [hv, hf]; exact ⟨hnd, hone⟩
    | some my =>
      cases ht : findParticipant db cid d with
      | none =>
        rw [removeParticipant_no_target db i cid d n my hv hf ht]
        by_cases h1 : (!(d == i) && !hasRole my.role "admin") = true
        · rw [if_pos h1]; exact ⟨hnd, hone⟩
        · rw [if_neg h1]
          by_cases h2 : ((d == i) && my.role == "owner") = true
          · rw [if_pos h2]; exact ⟨hnd, hone⟩
          · rw [if_neg h2]; exact ⟨hnd, hone⟩
      | some tgt =>
        rw [removeParticipant_of_both db i cid d n my tgt hv hf ht]
        by_cases h1 : (!(d == i) && !hasRole my.role "admin") = true
        · rw [if_pos h1]; exact ⟨hnd, hone⟩
        · rw [if_neg h1]
          by_cases h2 : ((d == i) && my.role == "owner") = true
          · rw [if_pos h2]; exact ⟨hnd, hone⟩
          · rw [if_neg h2]
            by_cases h3 : (!(d == i) && hasRole tgt.role my.role) = true
            · rw [if_pos h3]; exact ⟨hnd, hone⟩
            · rw [if_neg h3]
              have hfp := hf
              unfold findParticipant at hfp
              obtain ⟨hmyc, hmyd⟩ : my.conversationId = cid ∧ my.did = i
                := by simpa using List.find?_some hfp
              have hmyP : my ∈ db.participants :=
                List.mem_of_find?_eq_some hfp
              have htp := ht
              unfold findParticipant at htp
              obtain ⟨htc, htd⟩ : tgt.conversationId = cid ∧ tgt.did = d
                := by simpa using List.find?_some htp
              have htP : tgt ∈ db.participants :=
                List.mem_of_find?_eq_some htp
              unfold convDids at hnd
              have key : ∀ a b : Participant, a ∈ db.participants →
                  b ∈ db.participants → a.conversationId = cid →
                  b.conversationId = cid → a.did = b.did → a = b := by
                intro a b ha hb hac hbc hdid
                have ha' : a ∈ db.participants.filter
                    (fun p => p.conversationId == cid) :=
                  List.mem_filter.mpr ⟨ha, by simp [hac]⟩
                have hb' : b ∈ db.participants.filter
                    (fun p => p.conversationId == cid) :=
                  List.mem_filter.mpr ⟨hb, by simp [hbc]⟩
                exact List.inj_on_of_nodup_map hnd ha' hb' hdid
              have htgt_role : tgt.role ≠ "owner" := by
                cases hdi : (d == i) with
                | true =>
                  have hde : d = i := by simpa using hdi
                  have hmr : (my.role == "owner") = false := by
                    cases hmr2 : (my.role == "owner") with
                    | false => rfl
                    | true => exact absurd (by rw [hdi, hmr2]; rfl) h2
                  have heq : tgt = my :=
                    key tgt my htP hmyP htc hmyc (by rw [htd, hmyd, hde])
                  rw [heq]
                  simpa using hmr
                | false =>
                  have h3' : (hasRole tgt.role my.role) = false := by
                    cases h32 : hasRole tgt.role my.role with
                    | false => rfl
                    | true => exact absurd (by rw [hdi, h32]; rfl) h3
                  intro hown
                  have hlt : roleLevel tgt.role < roleLevel my.role := by
                    have h5 := Bool.eq_false_iff.mp h3'
                    simp only [hasRole, ne_eq, decide_eq_true_eq,
                      ge_iff_le] at h5
                    omega
                  rw [hown] at hlt
                  have h6 := roleLevel_le_three my.role
                  have h7 : roleLevel "owner" = 3 := by decide
                  omega
              unfold countOwners at hone
              obtain ⟨q, hq⟩ := List.length_eq_one.mp hone
              have hqmem : q ∈ db.participants.filter
                  (fun p => p.conversationId == cid &&
                    p.role == "owner") := by
                rw [hq]
                exact List.mem_cons_self _ _
              obtain ⟨hqP, hqpred⟩ := List.mem_filter.mp hqmem
              obtain ⟨hqc, hqr⟩ : q.conversationId = cid ∧
                  q.role = "owner" := by simpa using hqpred
              have hqd : (q.did == d) = false := by
                rw [beq_eq_false_iff_ne]
                intro hqd2
                have heq : q = tgt := key q tgt hqP htP hqc htc
                  (by rw [hqd2, htd])
                rw [heq] at hqr
                exact htgt_role hqr
              constructor
              · unfold convDids
                have h5 : ((db.participants.filter (fun p =>
                    !(p.conversationId == cid && p.did == d))).filter
                      (fun p => p.conversationId == cid)) =
                    ((db.participants.filter
                      (fun p => p.conversationId == cid)).filter (fun p =>
                        !(p.conversationId == cid && p.did == d))) := by
                  rw [List.filter_filter, List.filter_filter]
                  exact List.filter_congr (fun a _ => Bool.and_comm _ _)
                rw [h5]
                exact List.Pairwise.sublist
                  ((List.filter_sublist _).map _) hnd
              · unfold countOwners
                have h5 : ((db.participants.filter (fun p =>
                    !(p.conversationId == cid && p.did == d))).filter
                      (fun p => p.conversationId == cid &&
                        p.role == "owner")) =
                    ((db.participants.filter (fun p =>
                      p.conversationId == cid &&
                        p.role == "owner")).filter (fun p =>
                        !(p.conversationId == cid && p.did == d))) := by
                  rw [List.filter_filter, List.filter_filter]
                  exact List.filter_congr (fun a _ => Bool.and_comm _ _)
                rw [h5, hq, List.filter_cons]
                rw [if_pos (by simp [hqd])]
                rfl

/-- C1 amended: from a conversation state with duplicate-free participant
dids and exactly one owner, every sequence of participant operations in
which no add assigns the role "owner" preserves exactly one owner at all
times: setRole can never create or destroy an owner and remove can never
delete one, but add by the owner with the unvalidated role string "owner"
would break the invariant (see the counterexample). -/
theorem one_owner_invariant (cid : String) (ops : List POp) :
    ∀ db : Db,
      (∀ op ∈ ops, (match op with
        | POp.add _ _ r _ => r ≠ "owner"
        | _ => True)) →
      (convDids db cid).Nodup → countOwners db cid = 1 →
      (convDids (ops.foldl (applyOp cid) db) cid).Nodup ∧
        countOwners (ops.foldl (applyOp cid) db) cid = 1 := by
  induction ops with
  | nil =>
    intro db _ hnd hone
    exact ⟨hnd, hone⟩
  | cons op ops ih =>
    intro db hops hnd hone
    rw [List.foldl_cons]
    have hstep : (convDids (applyOp cid db op) cid).Nodup ∧
        countOwners (applyOp cid db op) cid = 1 := by
      cases op with
      | add i0 d0 r0 n0 =>
        exact addParticipant_preserves db cid i0 d0 r0 n0
          (hops _ (List.mem_cons_self _ _)) hnd hone
      | set i0 d0 r0 n0 =>
        exact setParticipantRole_preserves db cid i0 d0 r0 n0 hnd hone
      | rem i0 d0 n0 =>
        exact removeParticipant_preserves db cid i0 d0 n0 hnd hone
    exact ih (applyOp cid db op)
      (fun o ho => hops o (List.mem_cons_of_mem _ ho)) hstep.1 hstep.2

/-- Witness for the amended C1 theorem: add a member, promote them to
admin, then remove them; the conversation keeps exactly one owner
throughout. -/
theorem one_owner_invariant_witness :
    (convDids ([POp.add "did:imajin:alice" "did:imajin:bob" "member" 1,
        POp.set "did:imajin:alice" "did:imajin:bob" "admin" 2,
        POp.rem "did:imajin:alice" "did:imajin:bob" 3].foldl
      (applyOp "conv_0") dbOneOwner) "conv_0").Nodup ∧
    countOwners ([POp.add "did:imajin:alice" "did:imajin:bob" "member" 1,
        POp.set "did:imajin:alice" "did:imajin:bob" "admin" 2,
        POp.rem "did:imajin:alice" "did:imajin:bob" 3].foldl
      (applyOp "conv_0") dbOneOwner) "conv_0" = 1 :=
  one_owner_invariant "conv_0"
    [POp.add "did:imajin:alice" "did:imajin:bob" "member" 1,
     POp.set "did:imajin:alice" "did:imajin:bob" "admin" 2,
     POp.rem "did:imajin:alice" "did:imajin:bob" 3] dbOneOwner
    (by intro op hop
        simp only [List.mem_cons, List.not_mem_nil, or_false] at hop
        rcases hop with h | h | h <;> subst h <;> simp)
    (by decide) (by decide)

end ImajinChat
